import Mathlib

/-!
# Verification of the auction-average pipeline

Shallow embedding of the repository's price pipeline:

* `AhAvgs` — the current-snapshot aggregator (`src/currentAhAvgs.py`):
  IQR outlier removal and per-key averaging.
* `Pipeline` — the ended-auction ingestion pipeline (`src/__main__.py`):
  decode, extract, normalize, key derivation and persistence, with
  per-record error logging.

Prices are modelled as exact rationals; Python dicts that the code iterates
are modelled as association lists in insertion order; Python `None` becomes
`Option.none`; a caught per-record exception becomes an `Option`/`Except`
failure.
-/

namespace AhAvgs

/-- Embedding of `remove_outliers` (src/currentAhAvgs.py, lines 19-28).
Python's `sorted` is modelled by `List.insertionSort (· ≤ ·)`: over a linear
order any sorted permutation of a list is that same list, so the model is
exact. `1.5` is the exact rational `3/2`. Python indexing
`sorted_prices[i]` with `i` in bounds is modelled by `getD _ 0`; the
in-bounds facts are proved below. -/
def remove_outliers (prices : List ℚ) : List ℚ :=
  if prices.length < 4 then prices
  else
    let sorted_prices := List.insertionSort (· ≤ ·) prices
    let q1 := sorted_prices.getD (sorted_prices.length / 4) 0
    let q3 := sorted_prices.getD (3 * sorted_prices.length / 4) 0
    let iqr := q3 - q1
    let lower_bound := q1 - 1.5 * iqr
    let upper_bound := q3 + 1.5 * iqr
    prices.filter (fun p => decide (lower_bound ≤ p ∧ p ≤ upper_bound))

/-- The per-key body of the aggregation loop in `main`
(src/currentAhAvgs.py, lines 95-105): remove outliers, and if any price
survives produce `(average, volume)`, otherwise produce nothing
(`if cleaned_prices:` ... `else: pass`). -/
def aggregateGroup (prices : List ℚ) : Option (ℚ × Nat) :=
  let cleaned_prices := remove_outliers prices
  if cleaned_prices = [] then none
  else some (cleaned_prices.sum / (cleaned_prices.length : ℚ), cleaned_prices.length)

/-- Outlier removal as the spec's sentence states it (for comparison with
the source embedding `remove_outliers`): for fewer than 4 observations the
list is unchanged; otherwise sort ascending, take Q1 at index `n / 4` and
Q3 at index `3 * n / 4` (integer division, 0-indexed), `IQR = Q3 - Q1`, and
retain exactly the prices in `[Q1 - 1.5*IQR, Q3 + 1.5*IQR]`. -/
def removeOutliersSpec (prices : List ℚ) : List ℚ :=
  if 4 ≤ prices.length then
    let n := prices.length
    let sorted := List.insertionSort (· ≤ ·) prices
    let q1 := sorted.getD (n / 4) 0
    let q3 := sorted.getD (3 * n / 4) 0
    let iqr := q3 - q1
    prices.filter (fun p => decide (q1 - 1.5 * iqr ≤ p ∧ p ≤ q3 + 1.5 * iqr))
  else prices

theorem length_insertionSort_eq (prices : List ℚ) :
    (List.insertionSort (· ≤ ·) prices).length = prices.length :=
  (List.perm_insertionSort (· ≤ ·) prices).length_eq

/-- C1: For a group of at least 4 observations the aggregator sorts
ascending, takes Q1 at index `⌊n/4⌋` and Q3 at index `⌊3n/4⌋` (0-indexed
integer division, both indices in range, no interpolation), and retains
exactly the prices within `[Q1 - 1.5*IQR, Q3 + 1.5*IQR]`; a group of fewer
than 4 observations is returned unchanged. Stated as: the source embedding
equals the spec-side description, the sort really is an ascending sorted
permutation of the input, and the two quartile indices are in bounds. -/
theorem remove_outliers_meets_spec (prices : List ℚ) :
    remove_outliers prices = removeOutliersSpec prices ∧
    (List.insertionSort (· ≤ ·) prices).Perm prices ∧
    List.Sorted (· ≤ ·) (List.insertionSort (· ≤ ·) prices) ∧
    (4 ≤ prices.length →
      prices.length / 4 < prices.length ∧ 3 * prices.length / 4 < prices.length) := by
  refine ⟨?_, List.perm_insertionSort _ prices, List.sorted_insertionSort _ prices, ?_⟩
  · unfold remove_outliers removeOutliersSpec
    rcases lt_or_ge prices.length 4 with h | h
    · rw [if_pos h, if_neg (by omega)]
    · rw [if_neg (by omega), if_pos h]
      simp only [length_insertionSort_eq]
  · intro h
    omega

/-- C2 counterexample: On `[10, 12, 11, 13, 1000]` the claim's numbers
are wrong: the ascending sort is `[10, 11, 12, 13, 1000]`, so the element
at index 1 is `11`, not `12`; the retained list is not `[11, 12, 13]`; and
the aggregate is not average `12` with volume `3`. -/
theorem example_group_claim_false :
    (List.insertionSort (· ≤ ·) [(10 : ℚ), 12, 11, 13, 1000]).getD 1 0 ≠ 12 ∧
    remove_outliers [(10 : ℚ), 12, 11, 13, 1000] ≠ [11, 12, 13] ∧
    aggregateGroup [(10 : ℚ), 12, 11, 13, 1000] ≠ some (12, 3) := by
  have hs : List.insertionSort (· ≤ ·) [(10 : ℚ), 12, 11, 13, 1000]
      = [10, 11, 12, 13, 1000] := by
    norm_num [List.insertionSort, List.orderedInsert]
  have hro : remove_outliers [(10 : ℚ), 12, 11, 13, 1000] = [10, 12, 11, 13] := by
    rw [remove_outliers, if_neg (by norm_num)]
    rw [hs]
    norm_num [List.filter]
  refine ⟨by rw [hs]; norm_num [List.getD], by rw [hro]; simp, ?_⟩
  simp only [aggregateGroup, hro]
  rw [if_neg (by simp)]
  norm_num [List.sum]

/-- C2 amended: For `[10, 12, 11, 13, 1000]` (n = 5): the ascending
sort is `[10, 11, 12, 13, 1000]`, Q1 is the element at index 1, namely
`11`, Q3 the element at index 3, namely `13`, so IQR = 2 and the bounds are
`[8, 16]`; the retained prices are `[10, 12, 11, 13]` (in input order), and
the aggregate has average `11.5` and volume `4`. -/
theorem example_group_actual :
    List.insertionSort (· ≤ ·) [(10 : ℚ), 12, 11, 13, 1000] = [10, 11, 12, 13, 1000] ∧
    (List.insertionSort (· ≤ ·) [(10 : ℚ), 12, 11, 13, 1000]).getD 1 0 = 11 ∧
    (List.insertionSort (· ≤ ·) [(10 : ℚ), 12, 11, 13, 1000]).getD 3 0 = 13 ∧
    ((11 : ℚ) - 1.5 * (13 - 11) = 8 ∧ (13 : ℚ) + 1.5 * (13 - 11) = 16) ∧
    remove_outliers [(10 : ℚ), 12, 11, 13, 1000] = [10, 12, 11, 13] ∧
    aggregateGroup [(10 : ℚ), 12, 11, 13, 1000] = some (11.5, 4) := by
  have hs : List.insertionSort (· ≤ ·) [(10 : ℚ), 12, 11, 13, 1000]
      = [10, 11, 12, 13, 1000] := by
    norm_num [List.insertionSort, List.orderedInsert]
  have hro : remove_outliers [(10 : ℚ), 12, 11, 13, 1000] = [10, 12, 11, 13] := by
    rw [remove_outliers, if_neg (by norm_num)]
    rw [hs]
    norm_num [List.filter]
  refine ⟨hs, by rw [hs]; norm_num [List.getD], by rw [hs]; norm_num [List.getD],
    by norm_num, hro, ?_⟩
  simp only [aggregateGroup, hro]
  rw [if_neg (by simp)]
  norm_num [List.sum]

/-- C10: the function `remove_outliers` maps a non-empty list to a non-empty list:
for n ≥ 4, Q1 ≤ Q3 so the bounds contain Q1 itself, which occurs in the
input; hence the aggregation branch that skips a key with an empty retained
set is unreachable for a key with at least one observation
(`aggregateGroup` always produces an aggregate). -/
theorem remove_outliers_ne_nil (prices : List ℚ) (h : prices ≠ []) :
    remove_outliers prices ≠ [] ∧ (aggregateGroup prices).isSome := by
  have hmain : remove_outliers prices ≠ [] := by
    rcases lt_or_ge prices.length 4 with hlen | hlen
    · rw [remove_outliers, if_pos hlen]
      exact h
    · set s := List.insertionSort (· ≤ ·) prices with hsdef
      have hperm : s.Perm prices := List.perm_insertionSort _ prices
      have hsorted : List.Sorted (· ≤ ·) s := List.sorted_insertionSort _ prices
      have hslen : s.length = prices.length := hperm.length_eq
      have hi1 : s.length / 4 < s.length := by omega
      have hi3 : 3 * s.length / 4 < s.length := by omega
      have hq1 : s.getD (s.length / 4) 0 = s.get ⟨s.length / 4, hi1⟩ := by
        rw [List.getD_eq_getElem _ _ hi1]
        simp
      have hq3 : s.getD (3 * s.length / 4) 0 = s.get ⟨3 * s.length / 4, hi3⟩ := by
        rw [List.getD_eq_getElem _ _ hi3]
        simp
      have hle : s.getD (s.length / 4) 0 ≤ s.getD (3 * s.length / 4) 0 := by
        rw [hq1, hq3]
        exact hsorted.rel_get_of_le (by simp [Fin.le_def]; omega)
      have hmem : s.getD (s.length / 4) 0 ∈ prices := by
        rw [hq1]
        exact hperm.mem_iff.mp (List.get_mem s _ hi1)
      set q1 := s.getD (s.length / 4) 0
      set q3 := s.getD (3 * s.length / 4) 0
      have hin : q1 ∈ remove_outliers prices := by
        rw [remove_outliers, if_neg (by omega)]
        rw [List.mem_filter]
        refine ⟨hmem, ?_⟩
        rw [decide_eq_true_eq]
        constructor
        · nlinarith
        · nlinarith
      exact List.ne_nil_of_mem hin
  refine ⟨hmain, ?_⟩
  rw [aggregateGroup]
  simp [hmain]

/-- Witness for `remove_outliers_ne_nil` at the concrete input `[1, 2, 3]`. -/
theorem remove_outliers_ne_nil_witness :
    remove_outliers [(1 : ℚ), 2, 3] ≠ [] ∧ (aggregateGroup [(1 : ℚ), 2, 3]).isSome :=
  remove_outliers_ne_nil [(1 : ℚ), 2, 3] (by decide)

end AhAvgs

namespace Pipeline

deriving instance DecidableEq for Except

/-- A value of the decoded `ExtraAttributes.gems` map: either a nested map
(possibly holding a `quality` field) or some other value, such as the
reserved `unlocked_slots` list (only `isinstance(v, dict)` matters to the
code, so non-map values are collapsed to one constructor). -/
inductive GemVal where
  | map (entries : List (String × Int))
  | scalar (v : Int)
deriving DecidableEq

/-- The `tag.display` sub-map of a decoded item, with the fields the code
reads. A colour is a numeric NBT value, stringified later. -/
structure Display where
  color : Option Int := none
  Lore : List String := []
  Name : Option String := none
deriving DecidableEq

/-- The `tag.ExtraAttributes` sub-map of a decoded item. -/
structure ExtraAttrs where
  enchantments : Option (List (String × Int)) := none
  rarity_upgrades : Option Int := none
  attributes : Option (List (String × Int)) := none
  gems : Option (List (String × GemVal)) := none
  id : Option String := none
deriving DecidableEq

/-- The `tag` sub-map of a decoded item. -/
structure ItemTag where
  ExtraAttributes : Option ExtraAttrs := none
  display : Option Display := none
  ench : Option (List (String × Int)) := none
deriving DecidableEq

/-- One decoded item slot (`detail['i'][k]`). -/
structure Detail where
  Count : Option Int := none
  tag : Option ItemTag := none
deriving DecidableEq

/-- The decoded top level of an item blob: the `i` list of item slots. -/
structure Root where
  i : Option (List Detail) := none
deriving DecidableEq

/-- A base64 item blob, modelled by its text together with the outcome of
the foreign base64+NBT parse (`none` = the library parse raises). The
error handling of `decode_item_bytes` itself is embedded below; the binary
parse is library code outside this repository. -/
structure Blob where
  text : String := ""
  parsed : Option Root := none
deriving DecidableEq

/-- One raw ended auction after the `bin`/`buyer` filter. -/
structure Auction where
  timestamp : Int := 0
  price : Int := 0
  item_bytes : Blob := {}
deriving DecidableEq

/-- One line of the error sink (`decode_errors.log`): the stage tag and,
for decode failures, the (possibly truncated) blob preview. -/
structure LogEntry where
  stage : String
  preview : Option String := none
deriving DecidableEq

/-- `b[:120] + '...' if isinstance(b, str) and len(b) > 120 else b`
(src/__main__.py, line 50): the blob preview stored in a decode-error log
entry. -/
def truncBytes (s : String) : String :=
  if s.length > 120 then String.mk (s.data.take 120) ++ "..." else s

/-- Embedding of `decode_item_bytes` (src/__main__.py, lines 35-51): the
parse outcome, plus the decode-error log entry written when the parse
raises, carrying the truncated blob preview. -/
def decode_item_bytes (b : Blob) : Option Root × List LogEntry :=
  match b.parsed with
  | some root => (some root, [])
  | none => (none, [{ stage := "decode", preview := some (truncBytes b.text) }])

/-- Step 3 of `main` (src/__main__.py, lines 82-97): decode every auction;
a failed decode is logged and the record dropped, the rest continue. -/
def decodeStage : List Auction → List (Auction × Root) × List LogEntry
  | [] => ([], [])
  | x :: rest =>
    match decode_item_bytes x.item_bytes with
    | (some r, el) => ((x, r) :: (decodeStage rest).1, el ++ (decodeStage rest).2)
    | (none, el) => ((decodeStage rest).1, el ++ (decodeStage rest).2)

/-- Step 4 of `main` (src/__main__.py, lines 100-110): extract
`detail['i'][0]`; a record without that slot is logged and dropped. -/
def extractStage : List (Auction × Root) → List (Auction × Detail) × List LogEntry
  | [] => ([], [])
  | (x, root) :: rest =>
    match root.i with
    | some (d :: _) => ((x, d) :: (extractStage rest).1, (extractStage rest).2)
    | _ => ((extractStage rest).1, { stage := "extract_i0" } :: (extractStage rest).2)

/-- Whether a gems entry value is a dict containing a `quality` key (the
condition of the `any(...)` guard, src/__main__.py line 135). -/
def hasQuality : GemVal → Bool
  | .map entries => (List.lookup "quality" entries).isSome
  | .scalar _ => false

/-- The gems dict comprehension (src/__main__.py, line 134): keep
`k ↦ v["quality"]` for every non-reserved entry whose value is a dict; on
a dict value without a `quality` key, `v['quality']` raises `KeyError`
(`Except.error`). -/
def gemsEntries : List (String × GemVal) → Except Unit (List (String × Int))
  | [] => .ok []
  | (k, v) :: rest =>
    if k = "unlocked_slots" then gemsEntries rest
    else
      match v with
      | .map entries =>
        match List.lookup "quality" entries with
        | some q => (gemsEntries rest).map (fun r => (k, q) :: r)
        | none => .error ()
      | .scalar _ => gemsEntries rest

/-- The full `gems` field expression (src/__main__.py, lines 134-135): the
comprehension runs only when the gems dict is truthy and some entry is a
non-reserved dict carrying `quality`; otherwise the field is `None`. -/
def gemsField (g : Option (List (String × GemVal))) :
    Except Unit (Option (List (String × Int))) :=
  match g with
  | none => .ok none
  | some entries =>
    if !entries.isEmpty &&
        entries.any (fun kv => (kv.1 != "unlocked_slots") && hasQuality kv.2) then
      (gemsEntries entries).map some
    else .ok none

/-- One pass of Python `l.replace('§.', '')` (src/__main__.py, line 136):
`str.replace` replaces the literal two-character substring `"§."` (section
sign, then a full stop), left to right without rescanning. -/
def stripLoreChars : List Char → List Char
  | [] => []
  | '§' :: '.' :: rest => stripLoreChars rest
  | c :: rest => c :: stripLoreChars rest

/-- The per-line lore transformation `l.replace('§.', '')`. -/
def stripLore (l : String) : String := String.mk (stripLoreChars l.data)

/-- The flat record built by step 5 of `main` (src/__main__.py,
lines 122-141), with the fields the later stages read. -/
structure Rec where
  timestamp : Int := 0
  price : Int := 0
  unitprice : Option ℚ := none
  count : Option Int := none
  ench1 : Option (List (String × Int)) := none
  ench2 : Option (List (String × Int)) := none
  recomb : Option Int := none
  color : Option String := none
  attributes : Option (List (String × Int)) := none
  gems : Option (List (String × Int)) := none
  lore : List String := []
  name : Option String := none
  id : Option String := none
deriving DecidableEq

/-- The body of step 5's per-record `try` (src/__main__.py, lines 119-145):
`detail['tag']` and `['ExtraAttributes']` raise `KeyError` when absent,
`display` falls back to `{}`, the gems expression may raise, and any raised
exception is caught, logged and drops the record (`none`). Note
`ea.get('id')` never raises: a missing id yields `id = none`, not a
failure. -/
def processRecord (x : Auction × Detail) : Option Rec :=
  let detail := x.2
  match detail.tag with
  | none => none
  | some tag =>
    match tag.ExtraAttributes with
    | none => none
    | some ea =>
      let display := tag.display.getD {}
      match gemsField ea.gems with
      | .error _ => none
      | .ok gems =>
        some {
          timestamp := x.1.timestamp
          price := x.1.price
          unitprice :=
            match detail.Count with
            | some c => if c ≠ 0 then some ((x.1.price : ℚ) / (c : ℚ)) else none
            | none => none
          count := detail.Count
          ench1 := tag.ench
          ench2 := ea.enchantments
          recomb := ea.rarity_upgrades
          color := display.color.map (fun c => toString c)
          attributes := ea.attributes
          gems := gems
          lore := display.Lore.map stripLore
          name := display.Name
          id := ea.id }

/-- Step 5's loop (src/__main__.py, lines 119-145): records whose
processing raises are logged with a `process_record` stage tag and
dropped; the rest continue. -/
def processStage : List (Auction × Detail) → List Rec × List LogEntry
  | [] => ([], [])
  | x :: rest =>
    match processRecord x with
    | some r => (r :: (processStage rest).1, (processStage rest).2)
    | none => ((processStage rest).1, { stage := "process_record" } :: (processStage rest).2)

/-- The rule configuration read from `options.json`. -/
structure KeyRule where
  relevant_enchants : List (String × List Int) := []
  rarities : List String := []
  reforges : List String := []

/-- Whether one character list starts with another (Python string
comparison is by characters). -/
def pyStarts : List Char → List Char → Bool
  | [], _ => true
  | _ :: _, [] => false
  | a :: as, b :: bs => a == b && pyStarts as bs

/-- Whether `needle` occurs as a contiguous run inside `hay`. -/
def pyInChars (n : List Char) : List Char → Bool
  | [] => n.isEmpty
  | c :: t => pyStarts n (c :: t) || pyInChars n t

/-- Python's substring test `needle in hay` for strings. -/
def pyInStr (needle hay : String) : Bool := pyInChars needle.data hay.data

/-- Python `sep.join(parts)`. -/
def pyJoin (sep : String) : List String → String
  | [] => ""
  | [x] => x
  | x :: y :: xs => x ++ sep ++ pyJoin sep (y :: xs)

/-- Python dict truthiness (`if a.get(...):` on an optional dict): present
and non-empty. -/
def pyTruthyDict {α : Type} (o : Option (List α)) : Bool :=
  match o with
  | some l => !l.isEmpty
  | none => false

/-- Python int truthiness on an optional int: present and non-zero. -/
def pyTruthyInt (o : Option Int) : Bool :=
  match o with
  | some n => n != 0
  | none => false

/-- Python string truthiness on an optional string: present and non-empty. -/
def pyTruthyStr (o : Option String) : Bool :=
  match o with
  | some s => s != ""
  | none => false

/-- The enchant-segment comprehension of step 6 (src/__main__.py,
lines 150-153): iterate the configured `relevant_enchants` in order; an
entry contributes `name=level` when that name is an enchant of the record
whose level lies in the configured level list. -/
def enchStrings (opt : KeyRule) (ench2 : List (String × Int)) : List String :=
  opt.relevant_enchants.filterMap (fun p =>
    match List.lookup p.1 ench2 with
    | some lvl => if lvl ∈ p.2 then some (p.1 ++ "=" ++ toString lvl) else none
    | none => none)

/-- The `parts` list of step 6 (src/__main__.py, lines 149-170), in source
order: enchants, rarities, reforges, recombobulation, colour, attributes. -/
def keyParts (opt : KeyRule) (a : Rec) : List String :=
  let p1 :=
    if pyTruthyDict a.ench2 then
      let ench_part := pyJoin "," (enchStrings opt (a.ench2.getD []))
      if ench_part != "" then [ench_part] else []
    else []
  let lore_rarities := opt.rarities.filter (fun r => a.lore.contains r)
  let p2 := if !lore_rarities.isEmpty then [pyJoin "," lore_rarities] else []
  let reforges_present := opt.reforges.filter
    (fun r => pyTruthyStr a.name && pyInStr r (a.name.getD ""))
  let p3 := if !reforges_present.isEmpty then [pyJoin "," reforges_present] else []
  let p4 := if pyTruthyInt a.recomb then ["rarity_upgrade"] else []
  let p5 :=
    match a.color with
    | some c => ["color=" ++ c]
    | none => []
  let p6 :=
    if pyTruthyDict a.attributes then
      let attrs := pyJoin ","
        ((a.attributes.getD []).map (fun kv => kv.1 ++ "=" ++ toString kv.2))
      if attrs != "" then [attrs] else []
    else []
  p1 ++ p2 ++ p3 ++ p4 ++ p5 ++ p6

/-- The key assignment `a['key'] = a.get('id', 'UNKNOWN') + '.' +
'+'.join(parts)` (src/__main__.py, line 171). The record dict always
carries an `id` key (set to `ea.get('id')`), so the `'UNKNOWN'` default is
never taken; when the stored id is `None`, `None + '.'` raises
`TypeError`, modelled as `none`. -/
def deriveKey (opt : KeyRule) (a : Rec) : Option String :=
  match a.id with
  | some i => some (i ++ "." ++ pyJoin "+" (keyParts opt a))
  | none => none

/-- Step 6 loops over all records with no per-record exception handling
(src/__main__.py, lines 147-172): a raised `TypeError` aborts the whole
pass before anything is persisted, so the stage yields `none` when any
record's key derivation fails. -/
def keyStage (opt : KeyRule) : List Rec → Option (List (Rec × String))
  | [] => some []
  | a :: rest =>
    match deriveKey opt a with
    | some k => (keyStage opt rest).map (fun l => (a, k) :: l)
    | none => none

/-- Steps 3-6 of `main` plus persistence (steps 8-9 insert one parent row
per keyed record): the persisted observations of one batch and the error
sink's entries. -/
def pipeline (opt : KeyRule) (auctions : List Auction) :
    Option (List (Rec × String)) × List LogEntry :=
  let dec := decodeStage auctions
  let ext := extractStage dec.1
  let recs := processStage ext.1
  (keyStage opt recs.1, dec.2 ++ ext.2 ++ recs.2)

/-- The auxiliary `item_enchants` rows written for one observation
(src/__main__.py, lines 236-241): every entry of the full `enchantments`
dict, whether or not it contributed to the key. -/
def persistedEnchants (a : Rec) : List (String × Int) :=
  if pyTruthyDict a.ench2 then a.ench2.getD [] else []

/-- Formatting of one `name=value` assignment, Python `f"{k}={v}"`. -/
def fmtAssign (p : String × Int) : String := p.1 ++ "=" ++ toString p.2

/-- A zero-count detail: `tag`, `ExtraAttributes` and the id are present,
but `Count` is `0`, so `detail.get('Count')` is falsy. -/
def zeroCountDetail : Detail :=
  { Count := some 0, tag := some { ExtraAttributes := some { id := some "DIRT" } } }

/-- The auction carrying `zeroCountDetail`. -/
def zeroCountAuction : Auction := { timestamp := 7, price := 100 }

/-- The record step 5 builds for `zeroCountAuction`/`zeroCountDetail`. -/
def zeroCountRec : Rec :=
  { timestamp := 7, price := 100, unitprice := none, count := some 0, id := some "DIRT" }

/-- C5 counterexample: a record whose count resolves to zero is not
rejected and not logged: step 5 silently sets `unitprice = None`
(`x['price'] / detail['Count'] if detail.get('Count') else None`), keeps
the record, and the key/persist stages store it as an observation with a
null unit price; the error sink stays empty. -/
theorem zero_count_observation_persisted :
    processRecord (zeroCountAuction, zeroCountDetail) = some zeroCountRec ∧
    zeroCountRec.count = some 0 ∧
    zeroCountRec.unitprice = none ∧
    processStage [(zeroCountAuction, zeroCountDetail)] = ([zeroCountRec], []) ∧
    keyStage {} [zeroCountRec] = some [(zeroCountRec, "DIRT.")] := by
  exact ⟨by decide, by decide, by decide, by decide, by decide⟩

/-- A helper for C5: step 6 drops no record — when key derivation
succeeds for every record, the persisted observations are exactly the
processed records, in order. -/
theorem keyStage_map_fst (opt : KeyRule) :
    ∀ (recs : List Rec) (out : List (Rec × String)),
      keyStage opt recs = some out → out.map Prod.fst = recs := by
  intro recs
  induction recs with
  | nil =>
    intro out h
    simp only [keyStage, Option.some.injEq] at h
    simp [← h]
  | cons a rest ih =>
    intro out h
    simp only [keyStage] at h
    cases hk : deriveKey opt a with
    | none => rw [hk] at h; cases h
    | some k =>
      rw [hk] at h
      cases ht : keyStage opt rest with
      | none => rw [ht] at h; cases h
      | some l =>
        rw [ht] at h
        have h2 : (a, k) :: l = out := Option.some.inj h
        subst h2
        simp [ih l ht]

/-- C5 amended: `unitPrice = price / count` holds only when `count` is
present and non-zero; a record whose count is zero or absent gets
`unitprice = none` and is nevertheless kept and persisted (no rejection,
no log entry): every successfully processed record reaches the persisted
observation list. -/
theorem unitprice_and_zero_count (x : Auction × Detail) (r : Rec)
    (h : processRecord x = some r) :
    r.unitprice = (match x.2.Count with
      | some c => if c ≠ 0 then some ((x.1.price : ℚ) / (c : ℚ)) else none
      | none => none) ∧
    r.count = x.2.Count ∧
    (∀ (opt : KeyRule) (recs : List Rec) (out : List (Rec × String)),
      keyStage opt recs = some out → out.map Prod.fst = recs) := by
  refine ⟨?_, ?_, fun opt => keyStage_map_fst opt⟩ <;>
  · simp only [processRecord] at h
    split at h
    · cases h
    · split at h
      · cases h
      · split at h
        · cases h
        · rw [Option.some.injEq] at h
          subst h
          rfl

/-- Witness for `unitprice_and_zero_count`: the concrete zero-count record
gets a null unit price. -/
theorem unitprice_and_zero_count_witness : zeroCountRec.unitprice = none := by
  have h := (unitprice_and_zero_count (zeroCountAuction, zeroCountDetail)
    zeroCountRec (by decide)).1
  exact h.trans (by decide)

/-- A detail whose `ExtraAttributes` map is present but carries no `id`. -/
def noIdDetail : Detail := { tag := some { ExtraAttributes := some {} } }

/-- A detail with a well-formed id. -/
def goodDetail : Detail := { tag := some { ExtraAttributes := some { id := some "DIRT" } } }

/-- C6: a record whose decoded item lacks the base id is not rejected by
normalization — `ea.get('id')` yields `None` without raising, the record
passes step 5 with `id = none`, the error sink stays empty — and then
step 6's unguarded `a.get('id', 'UNKNOWN') + '.'` raises `TypeError`,
aborting the key stage for the whole batch, valid records included. -/
theorem missing_base_id_aborts_batch :
    (processStage [({}, noIdDetail), ({}, goodDetail)]).2 = [] ∧
    (processStage [({}, noIdDetail), ({}, goodDetail)]).1.map (fun r => r.id)
      = [none, some "DIRT"] ∧
    keyStage {} (processStage [({}, noIdDetail), ({}, goodDetail)]).1 = none := by
  exact ⟨by decide, by decide, by decide⟩

/-- An auction whose blob decodes to one well-formed item. -/
def goodAuction : Auction :=
  { timestamp := 1, price := 3,
    item_bytes := { text := "ok", parsed := some { i := some [goodDetail] } } }

/-- An auction whose blob fails to decode. -/
def corruptAuction : Auction := { item_bytes := { text := "bad", parsed := none } }

/-- The blob preview stored on a decode failure is bounded: at most
120 characters of the blob plus the three-character ellipsis. -/
theorem truncBytes_length_le (s : String) : (truncBytes s).length ≤ 123 := by
  unfold truncBytes
  by_cases h : s.length > 120
  · rw [if_pos h, String.length_append]
    have h1 : (String.mk (s.data.take 120)).length = (s.data.take 120).length := rfl
    have h2 : (s.data.take 120).length = min 120 s.data.length := List.length_take _ _
    have h3 : ("..." : String).length = 3 := rfl
    have h4 : min 120 s.data.length ≤ 120 := Nat.min_le_left _ _
    omega
  · rw [if_neg h]
    omega

/-- The decode stage keeps exactly the auctions whose blob decodes, in
order; it writes one log entry per failing auction, each tagged `decode`
and carrying a preview of at most 123 characters. -/
theorem decodeStage_spec : ∀ auctions : List Auction,
    (decodeStage auctions).1 =
      auctions.filterMap (fun x => (x.item_bytes.parsed).map (fun r => (x, r))) ∧
    (decodeStage auctions).2.length =
      (auctions.filter (fun x => x.item_bytes.parsed.isNone)).length ∧
    ∀ e ∈ (decodeStage auctions).2, e.stage = "decode" ∧
      ∃ s, e.preview = some s ∧ s.length ≤ 123 := by
  intro auctions
  induction auctions with
  | nil => exact ⟨rfl, rfl, by intro e he; cases he⟩
  | cons x rest ih =>
    obtain ⟨ih1, ih2, ih3⟩ := ih
    cases hp : x.item_bytes.parsed with
    | some r =>
      refine ⟨?_, ?_, ?_⟩
      · simp [decodeStage, decode_item_bytes, hp, ih1]
      · simp [decodeStage, decode_item_bytes, hp, ih2]
      · intro e he
        simp only [decodeStage, decode_item_bytes, hp, List.nil_append] at he
        exact ih3 e he
    | none =>
      refine ⟨?_, ?_, ?_⟩
      · simp [decodeStage, decode_item_bytes, hp, ih1]
      · simp [decodeStage, decode_item_bytes, hp, ih2]
      · intro e he
        simp only [decodeStage, decode_item_bytes, hp, List.cons_append,
          List.nil_append, List.mem_cons] at he
        rcases he with he | he
        · subst he
          exact ⟨rfl, truncBytes x.item_bytes.text, rfl, truncBytes_length_le _⟩
        · exact ih3 e he

/-- C7: a record whose blob fails to decode is logged (stage `decode`,
blob preview bounded by 123 characters) and dropped while all other
records continue; in particular a batch of one corrupted-blob auction and
nine valid auctions persists exactly nine observations and logs exactly
one decode failure. -/
theorem decode_failures_are_isolated :
    (∀ auctions : List Auction,
      (decodeStage auctions).1 =
        auctions.filterMap (fun x => (x.item_bytes.parsed).map (fun r => (x, r))) ∧
      (decodeStage auctions).2.length =
        (auctions.filter (fun x => x.item_bytes.parsed.isNone)).length ∧
      ∀ e ∈ (decodeStage auctions).2, e.stage = "decode" ∧
        ∃ s, e.preview = some s ∧ s.length ≤ 123) ∧
    (pipeline {} (corruptAuction :: List.replicate 9 goodAuction)).1.map List.length
      = some 9 ∧
    (pipeline {} (corruptAuction :: List.replicate 9 goodAuction)).2.map
      (fun e => e.stage) = ["decode"] := by
  exact ⟨decodeStage_spec, by decide, by decide⟩

/-- A detail whose display lore is the single line `"§aLegendary"`. -/
def colorLoreDetail : Detail :=
  { tag := some { ExtraAttributes := some { id := some "ITEM" },
                  display := some { Lore := ["§aLegendary"] } } }

/-- C8: the lore transformation `l.replace('§.', '')` removes only the
literal two-character sequence section-sign + full stop; a real colour
code such as `"§a"` is left in place, so the stored lore line is the raw
`"§aLegendary"`, not `"Legendary"`. -/
theorem color_code_not_stripped :
    stripLore "§aLegendary" = "§aLegendary" ∧
    stripLore "§aLegendary" ≠ "Legendary" ∧
    stripLore "§.X" = "X" ∧
    (processRecord ({}, colorLoreDetail)).map (fun r => r.lore)
      = some ["§aLegendary"] := by
  exact ⟨by decide, by decide, by decide, by decide⟩

/-- A gems map with one qualifying entry and one dict entry lacking
`quality`. -/
def mixedGems : List (String × GemVal) :=
  [("JADE_0", .map [("quality", 5)]), ("AMBER_0", .map [])]

/-- A detail carrying `mixedGems`. -/
def mixedGemsDetail : Detail :=
  { tag := some { ExtraAttributes := some { id := some "ITEM", gems := some mixedGems } } }

/-- C9: the gems comprehension checks `'quality' in v` only in its `any`
guard, not in the entry filter: with one qualifying entry present, a
non-reserved dict entry lacking `quality` raises `KeyError`, which drops
and logs the whole record instead of skipping the entry. The all-
qualifying, none-qualifying and absent cases behave as described. -/
theorem gems_missing_quality_fails_record :
    gemsField (some mixedGems) = .error () ∧
    processRecord ({}, mixedGemsDetail) = none ∧
    processStage [({}, mixedGemsDetail)] = ([], [{ stage := "process_record" }]) ∧
    gemsField (some [("JADE_0", .map [("quality", 5)]), ("unlocked_slots", .scalar 0)])
      = .ok (some [("JADE_0", 5)]) ∧
    gemsField (some [("AMBER_0", .map [])]) = .ok none ∧
    gemsField none = .ok none := by
  exact ⟨by decide, by decide, by decide, by decide, by decide, by decide⟩

/-- A string is empty exactly when its character list is. -/
theorem str_eq_empty_iff {s : String} : s = "" ↔ s.data = [] := by
  rw [String.ext_iff]

/-- Appending to a non-empty string on the left stays non-empty. -/
theorem append_ne_empty_left {a : String} (b : String) (h : a ≠ "") : a ++ b ≠ "" := by
  intro he
  apply h
  rw [str_eq_empty_iff] at he ⊢
  have h2 : a.data ++ b.data = [] := he
  exact (List.append_eq_nil.mp h2).1

/-- Appending a non-empty string on the right stays non-empty. -/
theorem append_ne_empty_right (a : String) {b : String} (h : b ≠ "") : a ++ b ≠ "" := by
  intro he
  apply h
  rw [str_eq_empty_iff] at he ⊢
  have h2 : a.data ++ b.data = [] := he
  exact (List.append_eq_nil.mp h2).2

/-- A rendered `name=value` assignment is never the empty string. -/
theorem fmtAssign_ne_empty (p : String × Int) : fmtAssign p ≠ "" :=
  append_ne_empty_left _ (append_ne_empty_right _ (by decide))

/-- A join of non-empty strings is empty exactly when the list is empty. -/
theorem pyJoin_eq_empty_iff (sep : String) (l : List String)
    (h : ∀ s ∈ l, s ≠ "") : pyJoin sep l = "" ↔ l = [] := by
  rcases l with _ | ⟨x, _ | ⟨y, t⟩⟩
  · simp [pyJoin]
  · simp only [pyJoin]
    constructor
    · intro hx
      exact absurd hx (h x (by simp))
    · intro hx
      exact (List.cons_ne_nil x [] hx).elim
  · simp only [pyJoin]
    constructor
    · intro hx
      exact absurd hx (append_ne_empty_left _ (append_ne_empty_left _ (h x (by simp))))
    · intro hx
      exact (List.cons_ne_nil _ _ hx).elim

/-- For a list of non-empty strings, the source's list-emptiness guard and
the claim's string-emptiness test select the same segment. -/
theorem seg_of_list (sep : String) (l : List String) (h : ∀ s ∈ l, s ≠ "") :
    (if !l.isEmpty then [pyJoin sep l] else [])
      = (if (pyJoin sep l) != "" then [pyJoin sep l] else []) := by
  by_cases hl : l = []
  · subst hl
    simp [pyJoin]
  · have hne : pyJoin sep l ≠ "" := fun he => hl ((pyJoin_eq_empty_iff sep l h).mp he)
    have h1 : (!l.isEmpty) = true := by
      rcases l with _ | ⟨x, t⟩
      · exact absurd rfl hl
      · rfl
    simp [h1, hne]

/-- A non-empty needle never occurs in the empty string. -/
theorem pyInStr_empty_hay {r : String} (h : r ≠ "") : pyInStr r "" = false := by
  show pyInChars r.data [] = false
  rcases hd : r.data with _ | ⟨c, t⟩
  · exact absurd (str_eq_empty_iff.mpr hd) h
  · simp [pyInChars, hd]

/-- The relevance filter at pair level (the comprehension of lines 150-153
before `f"{e}={level}"` formatting; also the claim's wording of which
enchants contribute): the configured entries whose name is an enchant of
the record with a level in the configured set. -/
def relevantEnchPairs (opt : KeyRule) (d : List (String × Int)) : List (String × Int) :=
  opt.relevant_enchants.filterMap (fun p =>
    match List.lookup p.1 d with
    | some lvl => if lvl ∈ p.2 then some (p.1, lvl) else none
    | none => none)

/-- The enchant-segment strings are exactly the formatted relevant pairs. -/
theorem enchStrings_eq_map (opt : KeyRule) (d : List (String × Int)) :
    enchStrings opt d = (relevantEnchPairs opt d).map fmtAssign := by
  unfold enchStrings relevantEnchPairs
  rw [List.map_filterMap]
  congr 1
  funext p
  cases hl : List.lookup p.1 d with
  | none => rfl
  | some lvl =>
    by_cases hm : lvl ∈ p.2 <;> simp [hm, fmtAssign]

/-- With no enchants on the record, no configured entry contributes. -/
theorem relevantEnchPairs_nil (opt : KeyRule) : relevantEnchPairs opt [] = [] := by
  unfold relevantEnchPairs
  rw [List.filterMap_eq_nil_iff]
  intro p _
  rw [List.lookup_nil]

/-- The six candidate segments of the claim's key description, in the
fixed order: relevant-enchant assignments, matched rarity tokens, matched
reforge tokens, `rarity_upgrade` when recombobulated, `color=<value>` when
a colour is present, attribute assignments. -/
def specCandidates (opt : KeyRule) (a : Rec) : List String :=
  [ pyJoin "," ((relevantEnchPairs opt (a.ench2.getD [])).map fmtAssign),
    pyJoin "," (opt.rarities.filter (fun r => a.lore.contains r)),
    pyJoin "," (opt.reforges.filter (fun r => pyInStr r (a.name.getD ""))),
    if pyTruthyInt a.recomb then "rarity_upgrade" else "",
    (match a.color with
      | some c => "color=" ++ c
      | none => ""),
    pyJoin "," ((a.attributes.getD []).map fmtAssign) ]

/-- The key the claim describes: the base id, a dot, then the `"+"`-join
of exactly the non-empty segments. -/
def specKey (opt : KeyRule) (a : Rec) (i : String) : String :=
  i ++ "." ++ pyJoin "+" ((specCandidates opt a).filter (fun s => s != ""))

/-- Association-list lookup with distinct keys agrees with membership. -/
theorem lookup_eq_some_iff_mem {β : Type} (e : String) (v : β) :
    ∀ cfg : List (String × β), (cfg.map Prod.fst).Nodup →
      (List.lookup e cfg = some v ↔ (e, v) ∈ cfg) := by
  intro cfg
  induction cfg with
  | nil => intro _; simp
  | cons hd t ih =>
    intro hnd
    obtain ⟨a, b⟩ := hd
    rw [List.map_cons, List.nodup_cons] at hnd
    by_cases he : e = a
    · subst he
      simp only [List.lookup, beq_self_eq_true]
      constructor
      · intro hv
        rw [← Option.some.inj hv]
        exact List.mem_cons_self _ _
      · intro hm
        rcases List.mem_cons.mp hm with heq | hm2
        · injection heq with h1 h2
          rw [h2]
        · exact absurd (List.mem_map_of_mem Prod.fst hm2) hnd.1
    · have hba : (e == a) = false := by simp [he]
      simp only [List.lookup, hba]
      rw [ih hnd.2, List.mem_cons]
      simp [Prod.ext_iff, he]

/-- The rule and records of the spec's enchant-relevance test. -/
def sharpRule : KeyRule := { relevant_enchants := [("sharpness", [5, 6, 7])] }

/-- A record with `enchantments2 = {"sharpness": 6}`. -/
def sharp6Rec : Rec := { ench2 := some [("sharpness", 6)], id := some "SWORD" }

/-- A record with `enchantments2 = {"sharpness": 4}`. -/
def sharp4Rec : Rec := { ench2 := some [("sharpness", 4)], id := some "SWORD" }

/-- C4: an enchant contributes a `name=level` assignment to the key
exactly when its name is a configured key of `relevant_enchants` (lookup
succeeds) and its level is in that name's configured level list; the
segment strings are the formatted contributing pairs; with
`{"sharpness": 6}` under `{"sharpness": [5,6,7]}` the key is
`SWORD.sharpness=6`, with level 4 it is the bare `SWORD.`; and every
enchant of the record, contributing or dropped, is written to the
auxiliary `item_enchants` table. -/
theorem enchant_relevance (opt : KeyRule) (a : Rec) (e : String) (l : Int)
    (hnd : (opt.relevant_enchants.map Prod.fst).Nodup) :
    ((e, l) ∈ relevantEnchPairs opt (a.ench2.getD []) ↔
      (∃ lvls, List.lookup e opt.relevant_enchants = some lvls ∧ l ∈ lvls) ∧
        List.lookup e (a.ench2.getD []) = some l) ∧
    enchStrings opt (a.ench2.getD [])
      = (relevantEnchPairs opt (a.ench2.getD [])).map fmtAssign ∧
    deriveKey sharpRule sharp6Rec = some "SWORD.sharpness=6" ∧
    deriveKey sharpRule sharp4Rec = some "SWORD." ∧
    (∀ b : Rec, ∀ p ∈ b.ench2.getD [], p ∈ persistedEnchants b) := by
  refine ⟨?_, enchStrings_eq_map opt _, by decide, by decide, ?_⟩
  · unfold relevantEnchPairs
    rw [List.mem_filterMap]
    constructor
    · rintro ⟨p, hp, hf⟩
      rcases hl : List.lookup p.1 (a.ench2.getD []) with _ | lvl
      · rw [hl] at hf
        exact Option.noConfusion hf
      · rw [hl] at hf
        have hf2 : (if lvl ∈ p.2 then some (p.1, lvl) else none) = some (e, l) := hf
        by_cases hm : lvl ∈ p.2
        · rw [if_pos hm] at hf2
          obtain ⟨he1, he2⟩ := Prod.ext_iff.mp (Option.some.inj hf2)
          subst he1
          subst he2
          refine ⟨⟨p.2, ?_, hm⟩, hl⟩
          exact (lookup_eq_some_iff_mem p.1 p.2 opt.relevant_enchants hnd).mpr hp
        · rw [if_neg hm] at hf2
          exact Option.noConfusion hf2
    · rintro ⟨⟨lvls, hcfg, hlv⟩, hlk⟩
      refine ⟨(e, lvls),
        (lookup_eq_some_iff_mem e lvls opt.relevant_enchants hnd).mp hcfg, ?_⟩
      simp [hlk, hlv]
  · intro b p hp
    unfold persistedEnchants
    cases hb : b.ench2 with
    | none => simp [hb] at hp
    | some d =>
      rw [hb] at hp
      cases d with
      | nil => simp at hp
      | cons q t => simpa [pyTruthyDict] using hp

/-- Witness for `enchant_relevance`: the sharpness-6 record keys as
`SWORD.sharpness=6`. -/
theorem enchant_relevance_witness :
    deriveKey sharpRule sharp6Rec = some "SWORD.sharpness=6" :=
  (enchant_relevance sharpRule sharp6Rec "sharpness" 6 (by decide)).2.2.1

/-- A rule whose reforge token list contains the empty string. -/
def emptyTokenRule : KeyRule := { reforges := [""] }

/-- A recombobulated named record keyed under `emptyTokenRule`. -/
def emptyTokenRec : Rec := { recomb := some 1, name := some "abc", id := some "X" }

/-- C3 counterexample: with a configured reforge token `""` and a
non-empty display name, the matched-token list is `[""]`, so the code
appends an empty part and the key gains a stray `+` separator:
`X.+rarity_upgrade` instead of the claim's `X.rarity_upgrade` — an empty
segment that is not omitted. -/
theorem empty_reforge_token_key :
    deriveKey emptyTokenRule emptyTokenRec = some "X.+rarity_upgrade" ∧
    specKey emptyTokenRule emptyTokenRec "X" = "X.rarity_upgrade" ∧
    deriveKey emptyTokenRule emptyTokenRec
      ≠ some (specKey emptyTokenRule emptyTokenRec "X") := by
  exact ⟨by decide, by decide, by decide⟩

/-- C3 amended: for every record with a present base id, and every rule
whose configured rarity and reforge tokens are non-empty strings (the
counterexample needs an empty-string token), the derived key is the base
id, a dot, and the `"+"`-join of exactly the non-empty segments in the
fixed order enchants, rarities, reforges, recombobulation, colour,
attributes; a segment that would be empty is omitted and contributes no
separator. -/
theorem key_is_dot_plus_join (opt : KeyRule) (a : Rec) (i : String)
    (hid : a.id = some i)
    (hrar : ∀ r ∈ opt.rarities, r ≠ "")
    (href : ∀ r ∈ opt.reforges, r ≠ "") :
    deriveKey opt a = some (specKey opt a i) := by
  have hfil : ∀ (c : String) (l : List String),
      (c :: l).filter (fun s => s != "")
        = (if c != "" then [c] else []) ++ l.filter (fun s => s != "") := by
    intro c l
    by_cases hc : (c != "") = true <;> simp [List.filter_cons, hc]
  have hench_nil : enchStrings opt ([] : List (String × Int)) = [] := by
    rw [enchStrings_eq_map, relevantEnchPairs_nil]
    rfl
  have h1 : (if pyTruthyDict a.ench2 then
        (if (pyJoin "," (enchStrings opt (a.ench2.getD []))) != "" then
          [pyJoin "," (enchStrings opt (a.ench2.getD []))] else [])
      else []) =
      (if (pyJoin "," ((relevantEnchPairs opt (a.ench2.getD [])).map fmtAssign)) != "" then
        [pyJoin "," ((relevantEnchPairs opt (a.ench2.getD [])).map fmtAssign)] else []) := by
    rw [← enchStrings_eq_map]
    cases he : a.ench2 with
    | none => simp [pyTruthyDict, hench_nil, pyJoin]
    | some d =>
      cases d with
      | nil => simp [pyTruthyDict, hench_nil, pyJoin]
      | cons q t => simp [pyTruthyDict]
  have h2 : (if !(opt.rarities.filter (fun r => a.lore.contains r)).isEmpty then
        [pyJoin "," (opt.rarities.filter (fun r => a.lore.contains r))] else [])
      = (if (pyJoin "," (opt.rarities.filter (fun r => a.lore.contains r))) != "" then
          [pyJoin "," (opt.rarities.filter (fun r => a.lore.contains r))] else []) :=
    seg_of_list "," _ (fun s hs => hrar s (List.mem_of_mem_filter hs))
  have href2 : opt.reforges.filter
        (fun r => pyTruthyStr a.name && pyInStr r (a.name.getD ""))
      = opt.reforges.filter (fun r => pyInStr r (a.name.getD "")) := by
    apply List.filter_congr
    intro r hr
    cases hn : a.name with
    | none =>
      have h0 : pyInStr r "" = false := pyInStr_empty_hay (href r hr)
      simp [pyTruthyStr, h0]
    | some nm =>
      by_cases hs : nm = ""
      · subst hs
        have h0 : pyInStr r "" = false := pyInStr_empty_hay (href r hr)
        simp [pyTruthyStr, h0]
      · simp [pyTruthyStr, bne_iff_ne, hs]
  have h3 : (if !(opt.reforges.filter
          (fun r => pyTruthyStr a.name && pyInStr r (a.name.getD ""))).isEmpty then
        [pyJoin "," (opt.reforges.filter
          (fun r => pyTruthyStr a.name && pyInStr r (a.name.getD "")))] else [])
      = (if (pyJoin "," (opt.reforges.filter (fun r => pyInStr r (a.name.getD "")))) != "" then
          [pyJoin "," (opt.reforges.filter (fun r => pyInStr r (a.name.getD "")))] else []) := by
    rw [href2]
    exact seg_of_list "," _ (fun s hs => href s (List.mem_of_mem_filter hs))
  have h4 : (if pyTruthyInt a.recomb then ["rarity_upgrade"] else [])
      = (if (if pyTruthyInt a.recomb then "rarity_upgrade" else "") != "" then
          [if pyTruthyInt a.recomb then "rarity_upgrade" else ""] else []) := by
    cases hrc : pyTruthyInt a.recomb <;> decide
  have h5 : (match a.color with
        | some c => ["color=" ++ c]
        | none => ([] : List String))
      = (if (match a.color with
            | some c => "color=" ++ c
            | none => "") != "" then
          [match a.color with
            | some c => "color=" ++ c
            | none => ""] else []) := by
    cases a.color with
    | none => decide
    | some c =>
      have h0 : ("color=" ++ c) ≠ "" := append_ne_empty_left c (by decide)
      simp [bne_iff_ne, h0]
  have h6 : (if pyTruthyDict a.attributes then
        (if (pyJoin "," ((a.attributes.getD []).map
            (fun kv => kv.1 ++ "=" ++ toString kv.2))) != "" then
          [pyJoin "," ((a.attributes.getD []).map
            (fun kv => kv.1 ++ "=" ++ toString kv.2))] else [])
      else []) =
      (if (pyJoin "," ((a.attributes.getD []).map fmtAssign)) != "" then
        [pyJoin "," ((a.attributes.getD []).map fmtAssign)] else []) := by
    have hfmt : (fun kv : String × Int => kv.1 ++ "=" ++ toString kv.2) = fmtAssign := rfl
    rw [hfmt]
    cases ha : a.attributes with
    | none => simp [pyTruthyDict, pyJoin]
    | some d =>
      cases d with
      | nil => simp [pyTruthyDict, pyJoin]
      | cons q t => simp [pyTruthyDict]
  have hparts : keyParts opt a = (specCandidates opt a).filter (fun s => s != "") := by
    simp only [keyParts, specCandidates, hfil, List.filter_nil, List.append_nil]
    rw [h1, h2, h3, h4, h5, h6]
    simp [List.append_assoc]
  simp only [deriveKey, hid]
  unfold specKey
  rw [hparts]

/-- The rule of `key_is_dot_plus_join`'s witness. -/
def joinWitnessRule : KeyRule :=
  { relevant_enchants := [("prot", [4])], rarities := ["RARE"], reforges := ["Sharp"] }

/-- The record of `key_is_dot_plus_join`'s witness, exercising all six
segments. -/
def joinWitnessRec : Rec :=
  { ench2 := some [("prot", 4)], lore := ["RARE"], name := some "Sharp Sword",
    recomb := some 1, color := some "123", attributes := some [("speed", 3)],
    id := some "ITEM" }

/-- Witness for `key_is_dot_plus_join` at a concrete record and rule. -/
theorem key_is_dot_plus_join_witness :
    deriveKey joinWitnessRule joinWitnessRec
      = some (specKey joinWitnessRule joinWitnessRec "ITEM") :=
  key_is_dot_plus_join joinWitnessRule joinWitnessRec "ITEM"
    (by decide) (by decide) (by decide)

end Pipeline
